import Mathlib

/-!
Shallow embedding of the vote accumulator of `src/types/src/vote.rs`
(`VoteAccumulator::append`), together with proofs of the specification
claims about it.

Modelling conventions:
* opaque byte blobs (commitments, public keys, encoded and native
  signatures, stake-table entries) are modelled as `Nat`;
* `HashMap`/`BTreeMap` are modelled as association lists with
  replace-on-insert semantics (`minsert`), which captures exactly the
  lookup/insert/remove/len behaviour the code uses;
* the two external capabilities the function calls — bincode
  deserialization of a signature share, and
  `BitvectorQuorumCertificate::assemble` — are parameters of `append`
  (`decode`, `assemble`), each returning `Option` (`none` = failure);
* every `panic!`-like abort of the source (`unwrap` on deserialization,
  `unimplemented!()`, `todo!()`, `unwrap` on `assemble`, `unwrap` on
  `remove`, out-of-range `BitVec::set`) is an explicit `RustPanic`
  value: the source's return type `Either<Self, QCAssembledSignature>`
  has no error channel, so a `RustPanic` outcome is a process abort,
  not a value returned to the caller;
* `AppendOut` additionally records, as ghost data, the value of `self`
  at the return point (`selfAtReturn`; the source drops it when
  returning `Either::Right`) and the argument list of every `assemble`
  invocation (`assembleArgs`).
-/

namespace HotShotVote

/-- Commitment hash (`Commitment<LEAF>`), opaque. -/
abbrev Commit := Nat

/-- Encoded public key (`EncodedPublicKey`), opaque. -/
abbrev PubKey := Nat

/-- Encoded signature bytes (`EncodedSignature`), opaque. -/
abbrev EncSig := Nat

/-- Deserialized native BLS signature, opaque. -/
abbrev Sig := Nat

/-- Assembled aggregate signature, opaque. -/
abbrev AggSig := Nat

/-- Stake table entry (`StakeTableEntry<QCVerKey>`), opaque. -/
abbrev StakeEntry := Nat

/-- Vote token: only its `vote_count()` weight is used by the accumulator. -/
structure Token where
  vote_count : Nat
  deriving DecidableEq, Repr

/-- The `VoteData` variants, as dispatched on by the exhaustive `match`
in `VoteAccumulator::append`; payloads are opaque. -/
inductive VoteData where
  | DA : Nat → VoteData
  | Yes : Nat → VoteData
  | No : Nat → VoteData
  | Timeout : Nat → VoteData
  | ViewSync : Nat → VoteData
  deriving DecidableEq, Repr

/-- Modelled from the spec: the certificate kinds produced by the
accumulator (`QCAssembledSignature` lives in `certificate.rs`, outside
the provided sources; `vote.rs` constructs exactly the `DA`, `Yes` and
`No` variants). -/
inductive QCAssembledSignature where
  | DA : AggSig → QCAssembledSignature
  | Yes : AggSig → QCAssembledSignature
  | No : AggSig → QCAssembledSignature
  deriving DecidableEq, Repr

/-- The `either::Either` type of the source's return value. -/
inductive Either (α β : Type) where
  | left : α → Either α β
  | right : β → Either α β
  deriving DecidableEq, Repr

/-- Process-aborting outcomes of the source (`unwrap`, `unimplemented!`,
`todo!`, out-of-range `BitVec::set`): these never return a value to the
caller. -/
inductive RustPanic where
  | deserializeUnwrap
  | bitvecSetOutOfRange
  | unimplementedTimeout
  | todoViewSync
  | assembleUnwrap
  | removeUnwrap
  deriving DecidableEq, Repr

/-- Association-list lookup (models `HashMap::get` / `BTreeMap::get`). -/
def mlookup {K V : Type} [DecidableEq K] : List (K × V) → K → Option V
  | [], _ => none
  | (k', v) :: t, k => if k = k' then some v else mlookup t k

/-- Association-list insert with replace-on-existing-key semantics
(models `HashMap::insert` / `BTreeMap::insert`). -/
def minsert {K V : Type} [DecidableEq K] : List (K × V) → K → V → List (K × V)
  | [], k, v => [(k, v)]
  | (k', v') :: t, k, v =>
    if k = k' then (k, v) :: t else (k', v') :: minsert t k v

/-- Association-list removal (models `HashMap::remove`). -/
def mremove {K V : Type} [DecidableEq K] (m : List (K × V)) (k : K) : List (K × V) :=
  m.filter (fun p => p.1 ≠ k)

/-- Read a bit of the signer bitmask (false out of range). -/
def bitGet : List Bool → Nat → Bool
  | [], _ => false
  | b :: _, 0 => b
  | _ :: t, n + 1 => bitGet t n

/-- Set a bit of the signer bitmask (models `BitVec::set`; callers must
check the index bound, as the source operation panics out of range). -/
def bitSet : List Bool → Nat → List Bool
  | [], _ => []
  | _ :: t, 0 => true :: t
  | b :: t, n + 1 => b :: bitSet t n

/-- Number of set bits of the signer bitmask. -/
def popcount (bs : List Bool) : Nat := bs.count true

/-- Per-signer entry of a tally map: `(EncodedSignature, VoteData, TOKEN)`. -/
abbrev SignerEntry := EncSig × VoteData × Token

/-- Model of `VoteMap<C, TOKEN>`: commitment → (accumulated stake, per-signer map). -/
abbrev VoteMap := List (Commit × (Nat × List (PubKey × SignerEntry)))

instance : DecidableEq (Nat × List (PubKey × SignerEntry)) := inferInstance

instance : DecidableEq VoteMap := inferInstance

/-- The `VoteAccumulator` state. -/
structure VoteAccumulator where
  total_vote_outcomes : VoteMap
  da_vote_outcomes : VoteMap
  yes_vote_outcomes : VoteMap
  no_vote_outcomes : VoteMap
  success_threshold : Nat
  failure_threshold : Nat
  sig_lists : List Sig
  signers : List Bool
  deriving DecidableEq, Repr

/-- The tuple argument of `append`, flattened into a structure:
`(commitment, (key, (sig, entry, entries, node_id, vote_data, token)))`. -/
structure VoteVal where
  commitment : Commit
  key : PubKey
  sig : EncSig
  entry : StakeEntry
  entries : List StakeEntry
  node_id : Nat
  vote_data : VoteData
  token : Token
  deriving DecidableEq, Repr

/-- Parameters `QCParams` passed to `assemble`. -/
structure QCParams where
  stake_entries : List StakeEntry
  threshold : Nat
  agg_sig_pp : Unit
  deriving DecidableEq, Repr

/-- Output of an `append` call: the source's return value (or the panic
that aborted it), plus ghost observations of the final `self` and of the
arguments of every `assemble` invocation. -/
structure AppendOut where
  result : Except RustPanic (Either VoteAccumulator QCAssembledSignature)
  selfAtReturn : Option VoteAccumulator
  assembleArgs : List (QCParams × List Bool × List Sig)

instance : DecidableEq (Except RustPanic (Either VoteAccumulator QCAssembledSignature)) := fun
  | .ok a, .ok b =>
    if h : a = b then .isTrue (by rw [h]) else .isFalse (by intro hc; cases hc; exact h rfl)
  | .error a, .error b =>
    if h : a = b then .isTrue (by rw [h]) else .isFalse (by intro hc; cases hc; exact h rfl)
  | .ok _, .error _ => .isFalse (by intro hc; cases hc)
  | .error _, .ok _ => .isFalse (by intro hc; cases hc)

/-- Model of `entry(commitment).or_insert_with(|| (0, BTreeMap::new()))`: ensure a
tally entry exists for the commitment. -/
def touch (m : VoteMap) (c : Commit) : VoteMap :=
  match mlookup m c with
  | some _ => m
  | none => minsert m c (0, [])

/-- Add the token's weight to a commitment's accumulated stake and upsert
the signer's entry (`*stake_casted += ...; vote_map.insert(...)`). The
entry is guaranteed to exist by a preceding `touch`. -/
def bump (m : VoteMap) (c : Commit) (k : PubKey) (sig : EncSig)
    (vd : VoteData) (tok : Token) : VoteMap :=
  match mlookup m c with
  | some e => minsert m c (e.1 + tok.vote_count, minsert e.2 k (sig, vd, tok))
  | none => m

/-- Accumulated stake recorded for a commitment (0 when absent). -/
def stakeOf (m : VoteMap) (c : Commit) : Nat :=
  match mlookup m c with
  | some e => e.1
  | none => 0

/-- Per-signer map lookup inside a commitment's tally entry. -/
def innerLookup (m : VoteMap) (c : Commit) (k : PubKey) : Option SignerEntry :=
  match mlookup m c with
  | some e => mlookup e.2 k
  | none => none

/-- Size of the per-signer map of a commitment's tally entry. -/
def innerSize (m : VoteMap) (c : Commit) : Nat :=
  match mlookup m c with
  | some e => e.2.length
  | none => 0

/-- Whether the vote's category is wired into a tally map (`DA`, `Yes`,
`No`); `Timeout` hits `unimplemented!()` and `ViewSync` hits `todo!()`. -/
def catSupported : VoteData → Bool
  | .DA _ => true
  | .Yes _ => true
  | .No _ => true
  | .Timeout _ => false
  | .ViewSync _ => false

/-- The accumulator state after the tally-update phase of `append`
(steps before the threshold check): signer bit set, deserialized
signature pushed, all four maps touched, weight and signer entry added
to the total map and to the map of the vote's category. -/
def updatedAcc (s : VoteAccumulator) (v : VoteVal) (x : Sig) : VoteAccumulator :=
  let c := v.commitment
  let da0 := touch s.da_vote_outcomes c
  let yes0 := touch s.yes_vote_outcomes c
  let no0 := touch s.no_vote_outcomes c
  { s with
    total_vote_outcomes :=
      bump (touch s.total_vote_outcomes c) c v.key v.sig v.vote_data v.token
    da_vote_outcomes :=
      match v.vote_data with
      | .DA _ => bump da0 c v.key v.sig v.vote_data v.token
      | _ => da0
    yes_vote_outcomes :=
      match v.vote_data with
      | .Yes _ => bump yes0 c v.key v.sig v.vote_data v.token
      | _ => yes0
    no_vote_outcomes :=
      match v.vote_data with
      | .No _ => bump no0 c v.key v.sig v.vote_data v.token
      | _ => no0
    sig_lists := s.sig_lists ++ [x]
    signers := bitSet s.signers v.node_id }

/-- The threshold-check tail of `append`, operating on the fully updated
accumulator: gate on total stake, call `assemble` (its `unwrap` panics on
failure), then check `da`, `yes`, `no` sub-thresholds in that order. -/
def thresholdCheck (assemble : QCParams → List Bool → List Sig → Option AggSig)
    (s : VoteAccumulator) (commitment : Commit) (entries : List StakeEntry) :
    AppendOut :=
  if s.success_threshold ≤ stakeOf s.total_vote_outcomes commitment then
    let real_qc_pp : QCParams :=
      { stake_entries := entries, threshold := s.success_threshold, agg_sig_pp := () }
    let args := [(real_qc_pp, s.signers, s.sig_lists)]
    match assemble real_qc_pp s.signers s.sig_lists with
    | none => ⟨.error .assembleUnwrap, none, args⟩
    | some real_qc_sig =>
      if s.success_threshold ≤ stakeOf s.da_vote_outcomes commitment then
        match mlookup s.da_vote_outcomes commitment with
        | none => ⟨.error .removeUnwrap, none, args⟩
        | some _ =>
          let t := { s with da_vote_outcomes := mremove s.da_vote_outcomes commitment }
          ⟨.ok (.right (.DA real_qc_sig)), some t, args⟩
      else if s.success_threshold ≤ stakeOf s.yes_vote_outcomes commitment then
        match mlookup s.yes_vote_outcomes commitment with
        | none => ⟨.error .removeUnwrap, none, args⟩
        | some _ =>
          let t := { s with yes_vote_outcomes := mremove s.yes_vote_outcomes commitment }
          ⟨.ok (.right (.Yes real_qc_sig)), some t, args⟩
      else if s.failure_threshold ≤ stakeOf s.no_vote_outcomes commitment then
        match mlookup s.total_vote_outcomes commitment with
        | none => ⟨.error .removeUnwrap, none, args⟩
        | some _ =>
          let t := { s with total_vote_outcomes := mremove s.total_vote_outcomes commitment }
          ⟨.ok (.right (.No real_qc_sig)), some t, args⟩
      else ⟨.ok (.left s), some s, args⟩
  else ⟨.ok (.left s), some s, []⟩

/-- The function `VoteAccumulator::append`, translated from `src/types/src/vote.rs`.
`decode` is the bincode deserialization of the signature share and
`assemble` is `BitvectorQuorumCertificate::assemble`; in the source both
failures are hit with `unwrap` (a panic). The `Timeout` and `ViewSync`
arms of the dispatch are `unimplemented!()` and `todo!()`; although the
source updates the total tally before reaching them, the panic discards
`self`, so no state escapes those arms. -/
def append (decode : EncSig → Option Sig)
    (assemble : QCParams → List Bool → List Sig → Option AggSig)
    (s : VoteAccumulator) (v : VoteVal) : AppendOut :=
  match decode v.sig with
  | none => ⟨.error .deserializeUnwrap, none, []⟩
  | some origianl_sig =>
    if v.node_id < s.signers.length then
      match v.vote_data with
      | .Timeout _ => ⟨.error .unimplementedTimeout, none, []⟩
      | .ViewSync _ => ⟨.error .todoViewSync, none, []⟩
      | _ => thresholdCheck assemble (updatedAcc s v origianl_sig) v.commitment v.entries
    else ⟨.error .bitvecSetOutOfRange, none, []⟩

/-- Total accumulated stake for the vote's subject after the vote's
weight is added. -/
def totalStakeAfter (s : VoteAccumulator) (v : VoteVal) : Nat :=
  stakeOf s.total_vote_outcomes v.commitment + v.token.vote_count

/-- DA tally for the vote's subject after the vote is dispatched. -/
def daStakeAfter (s : VoteAccumulator) (v : VoteVal) : Nat :=
  stakeOf s.da_vote_outcomes v.commitment +
    (match v.vote_data with | .DA _ => v.token.vote_count | _ => 0)

/-- Yes tally for the vote's subject after the vote is dispatched. -/
def yesStakeAfter (s : VoteAccumulator) (v : VoteVal) : Nat :=
  stakeOf s.yes_vote_outcomes v.commitment +
    (match v.vote_data with | .Yes _ => v.token.vote_count | _ => 0)

/-- No tally for the vote's subject after the vote is dispatched. -/
def noStakeAfter (s : VoteAccumulator) (v : VoteVal) : Nat :=
  stakeOf s.no_vote_outcomes v.commitment +
    (match v.vote_data with | .No _ => v.token.vote_count | _ => 0)

/-- Driver loop: fold `append` over a list of votes, continuing only
while each call returns `Collecting` (`Either::Left`). -/
def appendAll (decode : EncSig → Option Sig)
    (assemble : QCParams → List Bool → List Sig → Option AggSig) :
    VoteAccumulator → List VoteVal → Option VoteAccumulator
  | s, [] => some s
  | s, v :: vs =>
    match (append decode assemble s v).result with
    | .ok (.left s1) => appendAll decode assemble s1 vs
    | _ => none

/-! Association-list lemmas. -/

theorem mlookup_minsert_self {K V : Type} [DecidableEq K] (m : List (K × V)) (k : K) (v : V) :
    mlookup (minsert m k v) k = some v := by
  induction m with
  | nil => simp [minsert, mlookup]
  | cons h t ih =>
    by_cases hk : k = h.1
    · simp [minsert, hk, mlookup]
    · simpa [minsert, hk, mlookup] using ih

theorem mlookup_minsert_ne {K V : Type} [DecidableEq K] (m : List (K × V)) (k k' : K) (v : V)
    (h : k' ≠ k) : mlookup (minsert m k v) k' = mlookup m k' := by
  induction m with
  | nil => simp [minsert, mlookup, h]
  | cons p t ih =>
    by_cases hk : k = p.1
    · subst hk
      simp [minsert, mlookup, h]
    · by_cases hk' : k' = p.1
      · simp [minsert, hk, mlookup, hk']
      · simpa [minsert, hk, mlookup, hk'] using ih

theorem length_minsert_present {K V : Type} [DecidableEq K] (m : List (K × V)) (k : K) (v : V)
    (h : (mlookup m k).isSome) : (minsert m k v).length = m.length := by
  induction m with
  | nil => simp [mlookup] at h
  | cons p t ih =>
    by_cases hk : k = p.1
    · simp [minsert, hk]
    · have ht : (mlookup t k).isSome := by simpa [mlookup, hk] using h
      simp [minsert, hk, ih ht]

theorem mlookup_mremove_self {K V : Type} [DecidableEq K] (m : List (K × V)) (k : K) :
    mlookup (mremove m k) k = none := by
  induction m with
  | nil => simp [mremove, mlookup]
  | cons p t ih =>
    by_cases hk : p.1 = k
    · simpa [mremove, hk] using ih
    · have : k ≠ p.1 := fun hc => hk hc.symm
      simpa [mremove, hk, mlookup, this] using ih

theorem mlookup_mremove_ne {K V : Type} [DecidableEq K] (m : List (K × V)) (k k' : K)
    (h : k' ≠ k) : mlookup (mremove m k) k' = mlookup m k' := by
  induction m with
  | nil => simp [mremove, mlookup]
  | cons p t ih =>
    by_cases hk : p.1 = k
    · have : k' ≠ p.1 := by rw [hk]; exact h
      simpa [mremove, hk, mlookup, this, h] using ih
    · by_cases hk' : k' = p.1
      · simp [mremove, hk, mlookup, hk']
      · simpa [mremove, hk, mlookup, hk'] using ih

/-! Lemmas about `touch`, `bump` and the stake observations. -/

theorem mlookup_touch_self (m : VoteMap) (c : Commit) :
    mlookup (touch m c) c =
      some (match mlookup m c with | some e => e | none => (0, [])) := by
  unfold touch
  match h : mlookup m c with
  | some e => simp [h]
  | none => simp [mlookup_minsert_self]

theorem mlookup_touch_ne (m : VoteMap) (c c' : Commit) (h : c' ≠ c) :
    mlookup (touch m c) c' = mlookup m c' := by
  unfold touch
  match hm : mlookup m c with
  | some e => simp
  | none => simp [mlookup_minsert_ne _ _ _ _ h]

theorem stakeOf_touch (m : VoteMap) (c : Commit) : stakeOf (touch m c) c = stakeOf m c := by
  unfold stakeOf
  rw [mlookup_touch_self]
  match h : mlookup m c with
  | some e => simp
  | none => simp

theorem stakeOf_bump_touch (m : VoteMap) (c : Commit) (k : PubKey) (sig : EncSig)
    (vd : VoteData) (tok : Token) :
    stakeOf (bump (touch m c) c k sig vd tok) c = stakeOf m c + tok.vote_count := by
  unfold bump
  rw [mlookup_touch_self]
  unfold stakeOf
  rw [mlookup_minsert_self]
  match h : mlookup m c with
  | some e => simp [h]
  | none => simp [h]

theorem mlookup_bump_touch_isSome (m : VoteMap) (c : Commit) (k : PubKey) (sig : EncSig)
    (vd : VoteData) (tok : Token) :
    (mlookup (bump (touch m c) c k sig vd tok) c).isSome := by
  unfold bump
  rw [mlookup_touch_self]
  rw [mlookup_minsert_self]
  simp

theorem mlookup_touch_isSome (m : VoteMap) (c : Commit) :
    (mlookup (touch m c) c).isSome := by
  rw [mlookup_touch_self]
  simp

theorem innerLookup_bump_touch_self (m : VoteMap) (c : Commit) (k : PubKey) (sig : EncSig)
    (vd : VoteData) (tok : Token) :
    innerLookup (bump (touch m c) c k sig vd tok) c k = some (sig, vd, tok) := by
  unfold bump
  rw [mlookup_touch_self]
  unfold innerLookup
  rw [mlookup_minsert_self]
  simp [mlookup_minsert_self]

theorem innerSize_bump_touch_present (m : VoteMap) (c : Commit) (k : PubKey) (sig : EncSig)
    (vd : VoteData) (tok : Token) (h : (innerLookup m c k).isSome) :
    innerSize (bump (touch m c) c k sig vd tok) c = innerSize m c := by
  unfold innerLookup at h
  match hm : mlookup m c with
  | none => rw [hm] at h; simp at h
  | some e =>
    rw [hm] at h
    unfold bump
    rw [mlookup_touch_self, hm]
    unfold innerSize
    rw [mlookup_minsert_self, hm]
    simpa using length_minsert_present e.2 k (sig, vd, tok) h

/-! Bitmask lemmas. -/

theorem length_bitSet (bs : List Bool) (i : Nat) : (bitSet bs i).length = bs.length := by
  induction bs generalizing i with
  | nil => simp [bitSet]
  | cons b t ih =>
    cases i with
    | zero => simp [bitSet]
    | succ n => simp [bitSet, ih]

theorem bitGet_bitSet_self (bs : List Bool) (i : Nat) (h : i < bs.length) :
    bitGet (bitSet bs i) i = true := by
  induction bs generalizing i with
  | nil => simp at h
  | cons b t ih =>
    cases i with
    | zero => simp [bitSet, bitGet]
    | succ n =>
      simp [bitSet, bitGet]
      exact ih n (by simpa using h)

theorem bitGet_bitSet_ne (bs : List Bool) (i j : Nat) (h : j ≠ i) :
    bitGet (bitSet bs i) j = bitGet bs j := by
  induction bs generalizing i j with
  | nil => simp [bitSet]
  | cons b t ih =>
    cases i with
    | zero =>
      cases j with
      | zero => exact absurd rfl h
      | succ m => simp [bitSet, bitGet]
    | succ n =>
      cases j with
      | zero => simp [bitSet, bitGet]
      | succ m =>
        simp [bitSet, bitGet]
        exact ih n m (fun hc => h (by rw [hc]))

theorem popcount_bitSet_false (bs : List Bool) (i : Nat) (hi : i < bs.length)
    (h : bitGet bs i = false) : popcount (bitSet bs i) = popcount bs + 1 := by
  induction bs generalizing i with
  | nil => simp at hi
  | cons b t ih =>
    cases i with
    | zero =>
      have hb : b = false := h
      subst hb
      simp [bitSet, popcount, List.count_cons]
    | succ n =>
      have ht : popcount (bitSet t n) = popcount t + 1 :=
        ih n (by simpa using hi) (by simpa [bitGet] using h)
      simp [bitSet, popcount, List.count_cons] at ht ⊢
      omega

/-! Observations on the tally-update phase. -/

theorem mlookup_bump_ne (m : VoteMap) (c c' : Commit) (k : PubKey) (sig : EncSig)
    (vd : VoteData) (tok : Token) (h : c' ≠ c) :
    mlookup (bump m c k sig vd tok) c' = mlookup m c' := by
  unfold bump
  match hm : mlookup m c with
  | some e => exact mlookup_minsert_ne _ _ _ _ h
  | none => rfl

theorem updatedAcc_total_stake (s : VoteAccumulator) (v : VoteVal) (x : Sig) :
    stakeOf (updatedAcc s v x).total_vote_outcomes v.commitment = totalStakeAfter s v := by
  simp [updatedAcc, totalStakeAfter, stakeOf_bump_touch]

theorem updatedAcc_da_stake (s : VoteAccumulator) (v : VoteVal) (x : Sig) :
    stakeOf (updatedAcc s v x).da_vote_outcomes v.commitment = daStakeAfter s v := by
  unfold updatedAcc daStakeAfter
  cases hv : v.vote_data <;> simp [hv, stakeOf_bump_touch, stakeOf_touch]

theorem updatedAcc_yes_stake (s : VoteAccumulator) (v : VoteVal) (x : Sig) :
    stakeOf (updatedAcc s v x).yes_vote_outcomes v.commitment = yesStakeAfter s v := by
  unfold updatedAcc yesStakeAfter
  cases hv : v.vote_data <;> simp [hv, stakeOf_bump_touch, stakeOf_touch]

theorem updatedAcc_no_stake (s : VoteAccumulator) (v : VoteVal) (x : Sig) :
    stakeOf (updatedAcc s v x).no_vote_outcomes v.commitment = noStakeAfter s v := by
  unfold updatedAcc noStakeAfter
  cases hv : v.vote_data <;> simp [hv, stakeOf_bump_touch, stakeOf_touch]

theorem updatedAcc_total_isSome (s : VoteAccumulator) (v : VoteVal) (x : Sig) :
    (mlookup (updatedAcc s v x).total_vote_outcomes v.commitment).isSome := by
  simp [updatedAcc, mlookup_bump_touch_isSome]

theorem updatedAcc_da_isSome (s : VoteAccumulator) (v : VoteVal) (x : Sig) :
    (mlookup (updatedAcc s v x).da_vote_outcomes v.commitment).isSome := by
  unfold updatedAcc
  cases hv : v.vote_data <;>
    simp [hv, mlookup_bump_touch_isSome, mlookup_touch_isSome]

theorem updatedAcc_yes_isSome (s : VoteAccumulator) (v : VoteVal) (x : Sig) :
    (mlookup (updatedAcc s v x).yes_vote_outcomes v.commitment).isSome := by
  unfold updatedAcc
  cases hv : v.vote_data <;>
    simp [hv, mlookup_bump_touch_isSome, mlookup_touch_isSome]

theorem updatedAcc_no_isSome (s : VoteAccumulator) (v : VoteVal) (x : Sig) :
    (mlookup (updatedAcc s v x).no_vote_outcomes v.commitment).isSome := by
  unfold updatedAcc
  cases hv : v.vote_data <;>
    simp [hv, mlookup_bump_touch_isSome, mlookup_touch_isSome]

theorem updatedAcc_sig_lists (s : VoteAccumulator) (v : VoteVal) (x : Sig) :
    (updatedAcc s v x).sig_lists = s.sig_lists ++ [x] := by
  simp [updatedAcc]

theorem updatedAcc_signers (s : VoteAccumulator) (v : VoteVal) (x : Sig) :
    (updatedAcc s v x).signers = bitSet s.signers v.node_id := by
  simp [updatedAcc]

theorem updatedAcc_thresholds (s : VoteAccumulator) (v : VoteVal) (x : Sig) :
    (updatedAcc s v x).success_threshold = s.success_threshold ∧
      (updatedAcc s v x).failure_threshold = s.failure_threshold := by
  simp [updatedAcc]

/-! Inversion lemmas on the result of `append`. -/

theorem thresholdCheck_ok_left (a : QCParams → List Bool → List Sig → Option AggSig)
    (s : VoteAccumulator) (c : Commit) (e : List StakeEntry) (u : VoteAccumulator)
    (h : (thresholdCheck a s c e).result = .ok (.left u)) : u = s := by
  simp only [thresholdCheck] at h
  cases ha : a { stake_entries := e, threshold := s.success_threshold, agg_sig_pp := () }
      s.signers s.sig_lists <;>
    simp only [ha] at h <;>
    repeat' split at h
  all_goals simp_all

theorem append_ok_left (d : EncSig → Option Sig)
    (a : QCParams → List Bool → List Sig → Option AggSig)
    (s : VoteAccumulator) (v : VoteVal) (s1 : VoteAccumulator)
    (h : (append d a s v).result = .ok (.left s1)) :
    ∃ x, d v.sig = some x ∧ v.node_id < s.signers.length ∧
      catSupported v.vote_data = true ∧ s1 = updatedAcc s v x := by
  match hd : d v.sig with
  | none => simp only [append, hd] at h; exact absurd h (by simp)
  | some x =>
    simp only [append, hd] at h
    by_cases hin : v.node_id < s.signers.length
    · simp only [if_pos hin] at h
      refine ⟨x, rfl, hin, ?_⟩
      cases hv : v.vote_data <;> simp only [hv] at h <;>
        first
          | simp at h
          | exact ⟨by simp [catSupported], thresholdCheck_ok_left _ _ _ _ _ h⟩
    · simp only [if_neg hin] at h
      exact absurd h (by simp)

theorem append_ok_inv (d : EncSig → Option Sig)
    (a : QCParams → List Bool → List Sig → Option AggSig)
    (s : VoteAccumulator) (v : VoteVal)
    (r : Either VoteAccumulator QCAssembledSignature)
    (h : (append d a s v).result = .ok r) :
    ∃ x, d v.sig = some x ∧ v.node_id < s.signers.length ∧
      catSupported v.vote_data = true ∧
      append d a s v = thresholdCheck a (updatedAcc s v x) v.commitment v.entries := by
  match hd : d v.sig with
  | none => simp only [append, hd] at h; exact absurd h (by simp)
  | some x =>
    by_cases hin : v.node_id < s.signers.length
    · refine ⟨x, rfl, hin, ?_⟩
      cases hv : v.vote_data <;> simp only [append, hd, if_pos hin, hv] at h <;>
        first
          | exact absurd h (by simp)
          | exact ⟨by simp [catSupported, hv], by simp only [append, hd, if_pos hin, hv]⟩
    · simp only [append, hd, if_neg hin] at h
      exact absurd h (by simp)

theorem thresholdCheck_not_gated (a : QCParams → List Bool → List Sig → Option AggSig)
    (s : VoteAccumulator) (c : Commit) (e : List StakeEntry)
    (h : stakeOf s.total_vote_outcomes c < s.success_threshold) :
    thresholdCheck a s c e = ⟨.ok (.left s), some s, []⟩ := by
  simp [thresholdCheck, Nat.not_le.mpr h]

theorem thresholdCheck_ok_right (a : QCParams → List Bool → List Sig → Option AggSig)
    (s : VoteAccumulator) (c : Commit) (e : List StakeEntry)
    (cert : QCAssembledSignature)
    (h : (thresholdCheck a s c e).result = .ok (.right cert)) :
    s.success_threshold ≤ stakeOf s.total_vote_outcomes c ∧
    ∃ q, a { stake_entries := e, threshold := s.success_threshold, agg_sig_pp := () }
        s.signers s.sig_lists = some q ∧
      ((s.success_threshold ≤ stakeOf s.da_vote_outcomes c ∧ cert = .DA q ∧
          (thresholdCheck a s c e).selfAtReturn =
            some { s with da_vote_outcomes := mremove s.da_vote_outcomes c }) ∨
        (stakeOf s.da_vote_outcomes c < s.success_threshold ∧
          s.success_threshold ≤ stakeOf s.yes_vote_outcomes c ∧ cert = .Yes q ∧
          (thresholdCheck a s c e).selfAtReturn =
            some { s with yes_vote_outcomes := mremove s.yes_vote_outcomes c }) ∨
        (stakeOf s.da_vote_outcomes c < s.success_threshold ∧
          stakeOf s.yes_vote_outcomes c < s.success_threshold ∧
          s.failure_threshold ≤ stakeOf s.no_vote_outcomes c ∧ cert = .No q ∧
          (thresholdCheck a s c e).selfAtReturn =
            some { s with total_vote_outcomes := mremove s.total_vote_outcomes c })) := by
  by_cases h1 : s.success_threshold ≤ stakeOf s.total_vote_outcomes c
  · refine ⟨h1, ?_⟩
    simp only [thresholdCheck, if_pos h1] at h ⊢
    cases ha : a { stake_entries := e, threshold := s.success_threshold, agg_sig_pp := () }
        s.signers s.sig_lists with
    | none =>
      simp only [ha] at h
      exact absurd h (by simp)
    | some q =>
      simp only [ha] at h ⊢
      refine ⟨q, rfl, ?_⟩
      by_cases h2 : s.success_threshold ≤ stakeOf s.da_vote_outcomes c
      · simp only [if_pos h2] at h ⊢
        cases hm : mlookup s.da_vote_outcomes c <;> simp only [hm] at h ⊢
        · exact absurd h (by simp)
        · exact Or.inl ⟨h2, by simpa using h.symm, trivial⟩
      · simp only [if_neg h2] at h ⊢
        by_cases h3 : s.success_threshold ≤ stakeOf s.yes_vote_outcomes c
        · simp only [if_pos h3] at h ⊢
          cases hm : mlookup s.yes_vote_outcomes c <;> simp only [hm] at h ⊢
          · exact absurd h (by simp)
          · exact Or.inr (Or.inl ⟨Nat.not_le.mp h2, h3, by simpa using h.symm, trivial⟩)
        · simp only [if_neg h3] at h ⊢
          by_cases h4 : s.failure_threshold ≤ stakeOf s.no_vote_outcomes c
          · simp only [if_pos h4] at h ⊢
            cases hm : mlookup s.total_vote_outcomes c <;> simp only [hm] at h ⊢
            · exact absurd h (by simp)
            · exact Or.inr (Or.inr
                ⟨Nat.not_le.mp h2, Nat.not_le.mp h3, h4, by simpa using h.symm, trivial⟩)
          · simp only [if_neg h4] at h
            exact absurd h (by simp)
  · rw [thresholdCheck_not_gated a s c e (Nat.not_le.mp h1)] at h
    exact absurd h (by simp)

theorem thresholdCheck_gated_collecting
    (a : QCParams → List Bool → List Sig → Option AggSig)
    (s : VoteAccumulator) (c : Commit) (e : List StakeEntry) (q : AggSig)
    (h1 : s.success_threshold ≤ stakeOf s.total_vote_outcomes c)
    (ha : a { stake_entries := e, threshold := s.success_threshold, agg_sig_pp := () }
        s.signers s.sig_lists = some q)
    (h2 : stakeOf s.da_vote_outcomes c < s.success_threshold)
    (h3 : stakeOf s.yes_vote_outcomes c < s.success_threshold)
    (h4 : stakeOf s.no_vote_outcomes c < s.failure_threshold) :
    thresholdCheck a s c e =
      ⟨.ok (.left s), some s,
        [({ stake_entries := e, threshold := s.success_threshold, agg_sig_pp := () },
          s.signers, s.sig_lists)]⟩ := by
  simp [thresholdCheck, if_pos h1, ha, Nat.not_le.mpr h2, Nat.not_le.mpr h3, Nat.not_le.mpr h4]

theorem thresholdCheck_gated_da
    (a : QCParams → List Bool → List Sig → Option AggSig)
    (s : VoteAccumulator) (c : Commit) (e : List StakeEntry) (q : AggSig)
    (h1 : s.success_threshold ≤ stakeOf s.total_vote_outcomes c)
    (ha : a { stake_entries := e, threshold := s.success_threshold, agg_sig_pp := () }
        s.signers s.sig_lists = some q)
    (h2 : s.success_threshold ≤ stakeOf s.da_vote_outcomes c)
    (hm : (mlookup s.da_vote_outcomes c).isSome) :
    thresholdCheck a s c e =
      ⟨.ok (.right (.DA q)), some { s with da_vote_outcomes := mremove s.da_vote_outcomes c },
        [({ stake_entries := e, threshold := s.success_threshold, agg_sig_pp := () },
          s.signers, s.sig_lists)]⟩ := by
  cases hml : mlookup s.da_vote_outcomes c with
  | none => rw [hml] at hm; simp at hm
  | some w => simp [thresholdCheck, if_pos h1, ha, if_pos h2, hml]

theorem thresholdCheck_gated_yes
    (a : QCParams → List Bool → List Sig → Option AggSig)
    (s : VoteAccumulator) (c : Commit) (e : List StakeEntry) (q : AggSig)
    (h1 : s.success_threshold ≤ stakeOf s.total_vote_outcomes c)
    (ha : a { stake_entries := e, threshold := s.success_threshold, agg_sig_pp := () }
        s.signers s.sig_lists = some q)
    (h2 : stakeOf s.da_vote_outcomes c < s.success_threshold)
    (h3 : s.success_threshold ≤ stakeOf s.yes_vote_outcomes c)
    (hm : (mlookup s.yes_vote_outcomes c).isSome) :
    thresholdCheck a s c e =
      ⟨.ok (.right (.Yes q)), some { s with yes_vote_outcomes := mremove s.yes_vote_outcomes c },
        [({ stake_entries := e, threshold := s.success_threshold, agg_sig_pp := () },
          s.signers, s.sig_lists)]⟩ := by
  cases hml : mlookup s.yes_vote_outcomes c with
  | none => rw [hml] at hm; simp at hm
  | some w => simp [thresholdCheck, if_pos h1, ha, Nat.not_le.mpr h2, if_pos h3, hml]

theorem thresholdCheck_gated_no
    (a : QCParams → List Bool → List Sig → Option AggSig)
    (s : VoteAccumulator) (c : Commit) (e : List StakeEntry) (q : AggSig)
    (h1 : s.success_threshold ≤ stakeOf s.total_vote_outcomes c)
    (ha : a { stake_entries := e, threshold := s.success_threshold, agg_sig_pp := () }
        s.signers s.sig_lists = some q)
    (h2 : stakeOf s.da_vote_outcomes c < s.success_threshold)
    (h3 : stakeOf s.yes_vote_outcomes c < s.success_threshold)
    (h4 : s.failure_threshold ≤ stakeOf s.no_vote_outcomes c)
    (hm : (mlookup s.total_vote_outcomes c).isSome) :
    thresholdCheck a s c e =
      ⟨.ok (.right (.No q)),
        some { s with total_vote_outcomes := mremove s.total_vote_outcomes c },
        [({ stake_entries := e, threshold := s.success_threshold, agg_sig_pp := () },
          s.signers, s.sig_lists)]⟩ := by
  cases hml : mlookup s.total_vote_outcomes c with
  | none => rw [hml] at hm; simp at hm
  | some w =>
    simp [thresholdCheck, if_pos h1, ha, Nat.not_le.mpr h2, Nat.not_le.mpr h3, if_pos h4, hml]

theorem thresholdCheck_assemble_fail
    (a : QCParams → List Bool → List Sig → Option AggSig)
    (s : VoteAccumulator) (c : Commit) (e : List StakeEntry)
    (h1 : s.success_threshold ≤ stakeOf s.total_vote_outcomes c)
    (ha : a { stake_entries := e, threshold := s.success_threshold, agg_sig_pp := () }
        s.signers s.sig_lists = none) :
    thresholdCheck a s c e =
      ⟨.error .assembleUnwrap, none,
        [({ stake_entries := e, threshold := s.success_threshold, agg_sig_pp := () },
          s.signers, s.sig_lists)]⟩ := by
  simp [thresholdCheck, if_pos h1, ha]

theorem append_eq_thresholdCheck (d : EncSig → Option Sig)
    (a : QCParams → List Bool → List Sig → Option AggSig)
    (s : VoteAccumulator) (v : VoteVal) (x : Sig)
    (hd : d v.sig = some x) (hin : v.node_id < s.signers.length)
    (hcat : catSupported v.vote_data = true) :
    append d a s v = thresholdCheck a (updatedAcc s v x) v.commitment v.entries := by
  cases hv : v.vote_data with
  | DA p => simp only [append, hd, if_pos hin, hv]
  | Yes p => simp only [append, hd, if_pos hin, hv]
  | No p => simp only [append, hd, if_pos hin, hv]
  | Timeout p => rw [hv] at hcat; exact absurd hcat (by simp [catSupported])
  | ViewSync p => rw [hv] at hcat; exact absurd hcat (by simp [catSupported])

/-! Frame predicates used to state the dispatch claims. -/

/-- A tally map changed only by the creation of an empty `(0, ∅)` entry
for the subject (the effect of `or_insert_with` alone). -/
def unchangedExceptEmptyInit (mOld mNew : VoteMap) (c : Commit) : Prop :=
  (mlookup mOld c = none → mlookup mNew c = some (0, [])) ∧
  (∀ e, mlookup mOld c = some e → mlookup mNew c = some e) ∧
  ∀ c', c' ≠ c → mlookup mNew c' = mlookup mOld c'

/-- A tally map received the vote: weight added to the subject's stake,
signer entry upserted, all other subjects untouched. -/
def categoryUpdated (mOld mNew : VoteMap) (v : VoteVal) : Prop :=
  stakeOf mNew v.commitment = stakeOf mOld v.commitment + v.token.vote_count ∧
  innerLookup mNew v.commitment v.key = some (v.sig, v.vote_data, v.token) ∧
  ∀ c', c' ≠ v.commitment → mlookup mNew c' = mlookup mOld c'

theorem touch_unchangedExceptEmptyInit (m : VoteMap) (c : Commit) :
    unchangedExceptEmptyInit m (touch m c) c := by
  refine ⟨fun h => ?_, fun e h => ?_, fun c' hc' => mlookup_touch_ne m c c' hc'⟩
  · rw [mlookup_touch_self, h]
  · rw [mlookup_touch_self, h]

theorem bump_touch_categoryUpdated (m : VoteMap) (v : VoteVal) :
    categoryUpdated m (bump (touch m v.commitment) v.commitment v.key v.sig
      v.vote_data v.token) v := by
  refine ⟨stakeOf_bump_touch m _ _ _ _ _, innerLookup_bump_touch_self m _ _ _ _ _,
    fun c' hc' => ?_⟩
  rw [mlookup_bump_ne _ _ _ _ _ _ _ hc', mlookup_touch_ne m _ _ hc']

/-! Concrete sample inputs for witnesses and counterexamples. -/

/-- Deserialization that accepts every share (identity decoding). -/
def decOk : EncSig → Option Sig := fun e => some e

/-- Deserialization that rejects every share. -/
def decFail : EncSig → Option Sig := fun _ => none

/-- Aggregation capability that always succeeds with signature `0`. -/
def asmOk : QCParams → List Bool → List Sig → Option AggSig := fun _ _ _ => some 0

/-- Aggregation capability that always fails. -/
def asmFail : QCParams → List Bool → List Sig → Option AggSig := fun _ _ _ => none

/-- A freshly created accumulator over `n` signers. -/
def emptyAcc (n st ft : Nat) : VoteAccumulator :=
  ⟨[], [], [], [], st, ft, [], List.replicate n false⟩

/-- A sample vote value. -/
def sampleVote (c k sg id w : Nat) (vd : VoteData) : VoteVal :=
  ⟨c, k, sg, 0, [1, 1, 1, 1], id, vd, ⟨w⟩⟩

/-- Extract the `Either` payload of a successful `append` result. -/
def okResultOf (o : AppendOut) : Either VoteAccumulator QCAssembledSignature :=
  match o.result with
  | .ok r => r
  | .error _ => .left (emptyAcc 0 0 0)

/-- Claim C1: every `append` call that returns a value while the subject's
total accumulated stake (after this vote's weight) is below
`success_threshold` returns `Collecting` (`Either::Left`); consequently
no `Certified` (`Either::Right`) result is ever returned below the
threshold. -/
theorem threshold_gate (d : EncSig → Option Sig)
    (a : QCParams → List Bool → List Sig → Option AggSig)
    (s : VoteAccumulator) (v : VoteVal)
    (r : Either VoteAccumulator QCAssembledSignature)
    (hok : (append d a s v).result = .ok r)
    (hlow : totalStakeAfter s v < s.success_threshold) :
    ∃ s1, r = .left s1 := by
  cases r with
  | left s1 => exact ⟨s1, rfl⟩
  | right cert =>
    obtain ⟨x, hd, hin, hcat, heq⟩ := append_ok_inv d a s v _ hok
    rw [heq] at hok
    obtain ⟨h1, -⟩ := thresholdCheck_ok_right _ _ _ _ _ hok
    rw [updatedAcc_total_stake, (updatedAcc_thresholds s v x).1] at h1
    exact absurd h1 (Nat.not_le.mpr hlow)

/-- Witness for C1 at a concrete input: one weight-1 `Yes` vote into a
fresh 4-signer accumulator with `success_threshold = 3` stays below the
gate and the call returns `Collecting`. -/
theorem threshold_gate_witness :
    ((append decOk asmOk (emptyAcc 4 3 2) (sampleVote 7 1 5 0 1 (.Yes 9))).result =
        .ok (okResultOf (append decOk asmOk (emptyAcc 4 3 2) (sampleVote 7 1 5 0 1 (.Yes 9)))) ∧
      totalStakeAfter (emptyAcc 4 3 2) (sampleVote 7 1 5 0 1 (.Yes 9)) <
        (emptyAcc 4 3 2).success_threshold) ∧
    ∃ s1, okResultOf (append decOk asmOk (emptyAcc 4 3 2) (sampleVote 7 1 5 0 1 (.Yes 9))) =
      .left s1 :=
  ⟨⟨by decide, by decide⟩,
    threshold_gate decOk asmOk (emptyAcc 4 3 2) (sampleVote 7 1 5 0 1 (.Yes 9)) _
      (by decide) (by decide)⟩

/-- Claim C2: when the total threshold is reached and aggregation succeeds,
the outcome is decided in fixed priority order DA > Yes > No: a `da`
tally at `success_threshold` removes the subject's `da` entry and
returns `Certified(DA)`; otherwise a `yes` tally at `success_threshold`
returns `Certified(Yes)`; otherwise a `no` tally at `failure_threshold`
removes the subject's `total` entry and returns `Certified(No)`; and
when none of the three holds the call returns `Collecting` keeping the
partial tallies for the next `append`. -/
theorem priority_order (d : EncSig → Option Sig)
    (a : QCParams → List Bool → List Sig → Option AggSig)
    (s : VoteAccumulator) (v : VoteVal) (x : Sig) (q : AggSig)
    (hd : d v.sig = some x) (hin : v.node_id < s.signers.length)
    (hcat : catSupported v.vote_data = true)
    (hthr : s.success_threshold ≤ totalStakeAfter s v)
    (hasm : a { stake_entries := v.entries, threshold := s.success_threshold, agg_sig_pp := () }
        (bitSet s.signers v.node_id) (s.sig_lists ++ [x]) = some q) :
    (s.success_threshold ≤ daStakeAfter s v →
      (append d a s v).result = .ok (.right (.DA q)) ∧
      ∃ t, (append d a s v).selfAtReturn = some t ∧
        mlookup t.da_vote_outcomes v.commitment = none) ∧
    (daStakeAfter s v < s.success_threshold →
      s.success_threshold ≤ yesStakeAfter s v →
      (append d a s v).result = .ok (.right (.Yes q))) ∧
    (daStakeAfter s v < s.success_threshold →
      yesStakeAfter s v < s.success_threshold →
      s.failure_threshold ≤ noStakeAfter s v →
      (append d a s v).result = .ok (.right (.No q)) ∧
      ∃ t, (append d a s v).selfAtReturn = some t ∧
        mlookup t.total_vote_outcomes v.commitment = none) ∧
    (daStakeAfter s v < s.success_threshold →
      yesStakeAfter s v < s.success_threshold →
      noStakeAfter s v < s.failure_threshold →
      ∃ s1, (append d a s v).result = .ok (.left s1) ∧
        stakeOf s1.total_vote_outcomes v.commitment = totalStakeAfter s v ∧
        stakeOf s1.da_vote_outcomes v.commitment = daStakeAfter s v ∧
        stakeOf s1.yes_vote_outcomes v.commitment = yesStakeAfter s v ∧
        stakeOf s1.no_vote_outcomes v.commitment = noStakeAfter s v) := by
  have heq := append_eq_thresholdCheck d a s v x hd hin hcat
  have hts := (updatedAcc_thresholds s v x).1
  have htf := (updatedAcc_thresholds s v x).2
  have h1 : (updatedAcc s v x).success_threshold ≤
      stakeOf (updatedAcc s v x).total_vote_outcomes v.commitment := by
    rw [hts, updatedAcc_total_stake]; exact hthr
  have ha :
      a { stake_entries := v.entries, threshold := (updatedAcc s v x).success_threshold, agg_sig_pp := () }
        (updatedAcc s v x).signers (updatedAcc s v x).sig_lists = some q := by
    rw [hts, updatedAcc_signers, updatedAcc_sig_lists]; exact hasm
  refine ⟨?_, ?_, ?_, ?_⟩
  · intro hda
    have h2 : (updatedAcc s v x).success_threshold ≤
        stakeOf (updatedAcc s v x).da_vote_outcomes v.commitment := by
      rw [hts, updatedAcc_da_stake]; exact hda
    rw [heq, thresholdCheck_gated_da a _ _ _ q h1 ha h2 (updatedAcc_da_isSome s v x)]
    exact ⟨rfl, _, rfl, mlookup_mremove_self _ _⟩
  · intro hda hyes
    have h2 : stakeOf (updatedAcc s v x).da_vote_outcomes v.commitment <
        (updatedAcc s v x).success_threshold := by
      rw [hts, updatedAcc_da_stake]; exact hda
    have h3 : (updatedAcc s v x).success_threshold ≤
        stakeOf (updatedAcc s v x).yes_vote_outcomes v.commitment := by
      rw [hts, updatedAcc_yes_stake]; exact hyes
    rw [heq, thresholdCheck_gated_yes a _ _ _ q h1 ha h2 h3 (updatedAcc_yes_isSome s v x)]
  · intro hda hyes hno
    have h2 : stakeOf (updatedAcc s v x).da_vote_outcomes v.commitment <
        (updatedAcc s v x).success_threshold := by
      rw [hts, updatedAcc_da_stake]; exact hda
    have h3 : stakeOf (updatedAcc s v x).yes_vote_outcomes v.commitment <
        (updatedAcc s v x).success_threshold := by
      rw [hts, updatedAcc_yes_stake]; exact hyes
    have h4 : (updatedAcc s v x).failure_threshold ≤
        stakeOf (updatedAcc s v x).no_vote_outcomes v.commitment := by
      rw [htf, updatedAcc_no_stake]; exact hno
    rw [heq, thresholdCheck_gated_no a _ _ _ q h1 ha h2 h3 h4 (updatedAcc_total_isSome s v x)]
    exact ⟨rfl, _, rfl, mlookup_mremove_self _ _⟩
  · intro hda hyes hno
    have h2 : stakeOf (updatedAcc s v x).da_vote_outcomes v.commitment <
        (updatedAcc s v x).success_threshold := by
      rw [hts, updatedAcc_da_stake]; exact hda
    have h3 : stakeOf (updatedAcc s v x).yes_vote_outcomes v.commitment <
        (updatedAcc s v x).success_threshold := by
      rw [hts, updatedAcc_yes_stake]; exact hyes
    have h4 : stakeOf (updatedAcc s v x).no_vote_outcomes v.commitment <
        (updatedAcc s v x).failure_threshold := by
      rw [htf, updatedAcc_no_stake]; exact hno
    rw [heq, thresholdCheck_gated_collecting a _ _ _ q h1 ha h2 h3 h4]
    exact ⟨updatedAcc s v x, rfl, updatedAcc_total_stake s v x, updatedAcc_da_stake s v x,
      updatedAcc_yes_stake s v x, updatedAcc_no_stake s v x⟩

/-- Witness for C2 at a concrete input: a single weight-3 `DA` vote into
a fresh accumulator with `success_threshold = 3` reaches the gate with a
`da` tally at threshold and yields `Certified(DA)`. -/
theorem priority_order_witness :
    (decOk (sampleVote 7 1 5 0 3 (.DA 9)).sig = some 5 ∧
      (sampleVote 7 1 5 0 3 (.DA 9)).node_id < (emptyAcc 4 3 2).signers.length ∧
      catSupported (sampleVote 7 1 5 0 3 (.DA 9)).vote_data = true ∧
      (emptyAcc 4 3 2).success_threshold ≤
        totalStakeAfter (emptyAcc 4 3 2) (sampleVote 7 1 5 0 3 (.DA 9)) ∧
      (emptyAcc 4 3 2).success_threshold ≤
        daStakeAfter (emptyAcc 4 3 2) (sampleVote 7 1 5 0 3 (.DA 9))) ∧
    (append decOk asmOk (emptyAcc 4 3 2) (sampleVote 7 1 5 0 3 (.DA 9))).result =
      .ok (.right (.DA 0)) :=
  ⟨⟨by decide, by decide, by decide, by decide, by decide⟩,
    ((priority_order decOk asmOk (emptyAcc 4 3 2) (sampleVote 7 1 5 0 3 (.DA 9)) 5 0
        (by decide) (by decide) (by decide) (by decide) (by decide)).1 (by decide)).1⟩

theorem thresholdCheck_args_gated (a : QCParams → List Bool → List Sig → Option AggSig)
    (s : VoteAccumulator) (c : Commit) (e : List StakeEntry)
    (h1 : s.success_threshold ≤ stakeOf s.total_vote_outcomes c) :
    (thresholdCheck a s c e).assembleArgs =
      [({ stake_entries := e, threshold := s.success_threshold, agg_sig_pp := () },
        s.signers, s.sig_lists)] := by
  simp only [thresholdCheck, if_pos h1]
  cases ha : a { stake_entries := e, threshold := s.success_threshold, agg_sig_pp := () }
      s.signers s.sig_lists <;>
    (simp only [ha]; repeat' split)
  all_goals rfl

/-- Claim C3: with a decodable share, an in-range signer and a supported
category, certificate assembly is invoked exactly once when the
subject's total stake has reached `success_threshold` after this vote's
weight is added — over the updated bitmask, the full signature list and
the vote's stake-table entries — and is not invoked at all otherwise. -/
theorem assemble_once_iff_gated (d : EncSig → Option Sig)
    (a : QCParams → List Bool → List Sig → Option AggSig)
    (s : VoteAccumulator) (v : VoteVal) (x : Sig)
    (hd : d v.sig = some x) (hin : v.node_id < s.signers.length)
    (hcat : catSupported v.vote_data = true) :
    (append d a s v).assembleArgs =
      if s.success_threshold ≤ totalStakeAfter s v then
        [({ stake_entries := v.entries, threshold := s.success_threshold, agg_sig_pp := () },
          bitSet s.signers v.node_id, s.sig_lists ++ [x])]
      else [] := by
  rw [append_eq_thresholdCheck d a s v x hd hin hcat]
  by_cases hthr : s.success_threshold ≤ totalStakeAfter s v
  · rw [if_pos hthr]
    have h1 : (updatedAcc s v x).success_threshold ≤
        stakeOf (updatedAcc s v x).total_vote_outcomes v.commitment := by
      rw [(updatedAcc_thresholds s v x).1, updatedAcc_total_stake]; exact hthr
    rw [thresholdCheck_args_gated a _ _ _ h1, (updatedAcc_thresholds s v x).1,
      updatedAcc_signers, updatedAcc_sig_lists]
  · rw [if_neg hthr]
    have h1 : stakeOf (updatedAcc s v x).total_vote_outcomes v.commitment <
        (updatedAcc s v x).success_threshold := by
      rw [(updatedAcc_thresholds s v x).1, updatedAcc_total_stake]
      exact Nat.not_le.mp hthr
    rw [thresholdCheck_not_gated a _ _ _ h1]

/-- Witness for C3 at concrete inputs: a weight-3 `Yes` vote reaching
the gate records exactly one `assemble` invocation, and a weight-1 vote
below the gate records none. -/
theorem assemble_once_iff_gated_witness :
    (decOk (sampleVote 7 1 5 0 3 (.Yes 9)).sig = some 5 ∧
      (sampleVote 7 1 5 0 3 (.Yes 9)).node_id < (emptyAcc 4 3 2).signers.length ∧
      catSupported (sampleVote 7 1 5 0 3 (.Yes 9)).vote_data = true) ∧
    (append decOk asmOk (emptyAcc 4 3 2) (sampleVote 7 1 5 0 3 (.Yes 9))).assembleArgs =
      (if (emptyAcc 4 3 2).success_threshold ≤
          totalStakeAfter (emptyAcc 4 3 2) (sampleVote 7 1 5 0 3 (.Yes 9)) then
        [({ stake_entries := (sampleVote 7 1 5 0 3 (.Yes 9)).entries, threshold := (emptyAcc 4 3 2).success_threshold, agg_sig_pp := () },
          bitSet (emptyAcc 4 3 2).signers (sampleVote 7 1 5 0 3 (.Yes 9)).node_id,
          (emptyAcc 4 3 2).sig_lists ++ [5])]
      else []) :=
  ⟨⟨by decide, by decide, by decide⟩,
    assemble_once_iff_gated decOk asmOk (emptyAcc 4 3 2) (sampleVote 7 1 5 0 3 (.Yes 9)) 5
      (by decide) (by decide) (by decide)⟩

/-- Counterexample to claim C4: a vote whose share does not deserialize makes the
call abort with the `unwrap` panic of the deserialization — a process
abort, not a malformed-share error value returned to the caller (the
source return type `Either<Self, QCAssembledSignature>` has no error
channel at all). -/
theorem malformed_share_cex :
    (append decFail asmOk (emptyAcc 4 3 2) (sampleVote 7 1 5 0 1 (.Yes 9))).result =
      .error .deserializeUnwrap := by decide

/-- Amended claim C4: a vote whose signature share cannot be deserialized
aborts the `append` call by the source's `unwrap` panic before any state
update — no tally, bitmask or signature-list change is reachable, no
aggregation is attempted, and no `Collecting`/`Certified` value is
returned to the caller. -/
theorem malformed_share_aborts (d : EncSig → Option Sig)
    (a : QCParams → List Bool → List Sig → Option AggSig)
    (s : VoteAccumulator) (v : VoteVal) (h : d v.sig = none) :
    (append d a s v).result = .error .deserializeUnwrap ∧
    (append d a s v).selfAtReturn = none ∧
    (append d a s v).assembleArgs = [] := by
  refine ⟨?_, ?_, ?_⟩ <;> simp [append, h]

/-- Witness for the amended C4 at a concrete input. -/
theorem malformed_share_aborts_witness :
    decFail (sampleVote 7 1 5 0 1 (.Yes 9)).sig = none ∧
    (append decFail asmOk (emptyAcc 4 3 2) (sampleVote 7 1 5 0 1 (.Yes 9))).result =
      .error .deserializeUnwrap :=
  ⟨by decide,
    (malformed_share_aborts decFail asmOk (emptyAcc 4 3 2) (sampleVote 7 1 5 0 1 (.Yes 9))
      (by decide)).1⟩

/-- Counterexample to claim C5: appending a `Timeout` vote aborts with the
`unimplemented!()` panic — no "category not supported" error value is
returned to the caller (the source return type has no error channel). -/
theorem unsupported_category_cex :
    (append decOk asmOk (emptyAcc 4 3 2) (sampleVote 7 1 5 0 1 (.Timeout 3))).result =
      .error .unimplementedTimeout ∧
    (append decOk asmOk (emptyAcc 4 3 2) (sampleVote 7 1 5 0 1 (.ViewSync 3))).result =
      .error .todoViewSync := by
  exact ⟨by decide, by decide⟩

/-- Amended claim C5: a `Timeout` or `ViewSync` vote never silently succeeds
with incorrect tallying — but the rejection is the `unimplemented!()` /
`todo!()` panic (a process abort), not an explicit unsupported-category
error returned to the caller. -/
theorem unsupported_category_aborts (d : EncSig → Option Sig)
    (a : QCParams → List Bool → List Sig → Option AggSig)
    (s : VoteAccumulator) (v : VoteVal) (x : Sig)
    (hd : d v.sig = some x) (hin : v.node_id < s.signers.length) :
    (∀ p, v.vote_data = .Timeout p →
      append d a s v = ⟨.error .unimplementedTimeout, none, []⟩) ∧
    (∀ p, v.vote_data = .ViewSync p →
      append d a s v = ⟨.error .todoViewSync, none, []⟩) := by
  constructor <;> intro p hv <;> simp [append, hd, hin, hv]

/-- Witness for the amended C5 at a concrete input. -/
theorem unsupported_category_aborts_witness :
    (decOk (sampleVote 7 1 5 0 1 (.Timeout 3)).sig = some 5 ∧
      (sampleVote 7 1 5 0 1 (.Timeout 3)).node_id < (emptyAcc 4 3 2).signers.length ∧
      (sampleVote 7 1 5 0 1 (.Timeout 3)).vote_data = .Timeout 3) ∧
    append decOk asmOk (emptyAcc 4 3 2) (sampleVote 7 1 5 0 1 (.Timeout 3)) =
      ⟨.error .unimplementedTimeout, none, []⟩ :=
  ⟨⟨by decide, by decide, by decide⟩,
    (unsupported_category_aborts decOk asmOk (emptyAcc 4 3 2)
        (sampleVote 7 1 5 0 1 (.Timeout 3)) 5 (by decide) (by decide)).1 3 (by decide)⟩

/-- Counterexample to claim C6: when the gate is reached and `assemble` fails,
the call aborts with the `unwrap` panic on the `assemble` result — an
abrupt process termination, not a typed result surfaced to the caller. -/
theorem assemble_failure_cex :
    (append decOk asmFail (emptyAcc 4 3 2) (sampleVote 7 1 5 0 3 (.Yes 9))).result =
      .error .assembleUnwrap := by decide

/-- Amended claim C6: when the total threshold is reached but `assemble`
fails, no partial or degraded certificate is ever returned — but the
failure aborts the process via `unwrap` instead of being surfaced to the
caller as a typed result. -/
theorem assemble_failure_aborts (d : EncSig → Option Sig)
    (a : QCParams → List Bool → List Sig → Option AggSig)
    (s : VoteAccumulator) (v : VoteVal) (x : Sig)
    (hd : d v.sig = some x) (hin : v.node_id < s.signers.length)
    (hcat : catSupported v.vote_data = true)
    (hthr : s.success_threshold ≤ totalStakeAfter s v)
    (hasm : a { stake_entries := v.entries, threshold := s.success_threshold, agg_sig_pp := () }
        (bitSet s.signers v.node_id) (s.sig_lists ++ [x]) = none) :
    (append d a s v).result = .error .assembleUnwrap ∧
    (append d a s v).selfAtReturn = none := by
  have h1 : (updatedAcc s v x).success_threshold ≤
      stakeOf (updatedAcc s v x).total_vote_outcomes v.commitment := by
    rw [(updatedAcc_thresholds s v x).1, updatedAcc_total_stake]; exact hthr
  have ha :
      a { stake_entries := v.entries, threshold := (updatedAcc s v x).success_threshold, agg_sig_pp := () }
        (updatedAcc s v x).signers (updatedAcc s v x).sig_lists = none := by
    rw [(updatedAcc_thresholds s v x).1, updatedAcc_signers, updatedAcc_sig_lists]; exact hasm
  rw [append_eq_thresholdCheck d a s v x hd hin hcat,
    thresholdCheck_assemble_fail a _ _ _ h1 ha]
  exact ⟨rfl, rfl⟩

/-- Witness for the amended C6 at a concrete input. -/
theorem assemble_failure_aborts_witness :
    ((emptyAcc 4 3 2).success_threshold ≤
        totalStakeAfter (emptyAcc 4 3 2) (sampleVote 7 1 5 0 3 (.Yes 9)) ∧
      asmFail { stake_entries := (sampleVote 7 1 5 0 3 (.Yes 9)).entries, threshold := (emptyAcc 4 3 2).success_threshold, agg_sig_pp := () }
        (bitSet (emptyAcc 4 3 2).signers 0) ((emptyAcc 4 3 2).sig_lists ++ [5]) = none) ∧
    (append decOk asmFail (emptyAcc 4 3 2) (sampleVote 7 1 5 0 3 (.Yes 9))).result =
      .error .assembleUnwrap :=
  ⟨⟨by decide, by decide⟩,
    (assemble_failure_aborts decOk asmFail (emptyAcc 4 3 2) (sampleVote 7 1 5 0 3 (.Yes 9)) 5
      (by decide) (by decide) (by decide) (by decide) (by decide)).1⟩

theorem updatedAcc_total_innerLookup (s : VoteAccumulator) (v : VoteVal) (x : Sig) :
    innerLookup (updatedAcc s v x).total_vote_outcomes v.commitment v.key =
      some (v.sig, v.vote_data, v.token) := by
  simp [updatedAcc, innerLookup_bump_touch_self]

theorem updatedAcc_yes_innerLookup (s : VoteAccumulator) (v : VoteVal) (x : Sig) (p : Nat)
    (hv : v.vote_data = .Yes p) :
    innerLookup (updatedAcc s v x).yes_vote_outcomes v.commitment v.key =
      some (v.sig, v.vote_data, v.token) := by
  simp [updatedAcc, hv, innerLookup_bump_touch_self]

theorem updatedAcc_total_innerSize (s : VoteAccumulator) (v : VoteVal) (x : Sig)
    (h : (innerLookup s.total_vote_outcomes v.commitment v.key).isSome) :
    innerSize (updatedAcc s v x).total_vote_outcomes v.commitment =
      innerSize s.total_vote_outcomes v.commitment := by
  simpa [updatedAcc] using
    innerSize_bump_touch_present s.total_vote_outcomes v.commitment v.key v.sig
      v.vote_data v.token h

theorem updatedAcc_yes_innerSize (s : VoteAccumulator) (v : VoteVal) (x : Sig) (p : Nat)
    (hv : v.vote_data = .Yes p)
    (h : (innerLookup s.yes_vote_outcomes v.commitment v.key).isSome) :
    innerSize (updatedAcc s v x).yes_vote_outcomes v.commitment =
      innerSize s.yes_vote_outcomes v.commitment := by
  simpa [updatedAcc, hv] using
    innerSize_bump_touch_present s.yes_vote_outcomes v.commitment v.key v.sig
      v.vote_data v.token h

theorem updatedAcc_yes_stake_yes (s : VoteAccumulator) (v : VoteVal) (x : Sig) (p : Nat)
    (hv : v.vote_data = .Yes p) :
    stakeOf (updatedAcc s v x).yes_vote_outcomes v.commitment =
      stakeOf s.yes_vote_outcomes v.commitment + v.token.vote_count := by
  rw [updatedAcc_yes_stake]
  simp [yesStakeAfter, hv]

/-- Claim C7: two accepted `Yes` votes from the same signer for the same
subject count the token weight twice in both the subject's `total` and
`yes` accumulated stake, while the per-signer map retains only the
second vote's signature (last write wins) and does not grow between the
first and the second call. -/
theorem duplicate_signer_double_stake (d : EncSig → Option Sig)
    (a : QCParams → List Bool → List Sig → Option AggSig)
    (s s1 s2 : VoteAccumulator) (v1 v2 : VoteVal) (p1 p2 : Nat)
    (hc : v2.commitment = v1.commitment) (hk : v2.key = v1.key)
    (hv1 : v1.vote_data = .Yes p1) (hv2 : v2.vote_data = .Yes p2)
    (h1 : (append d a s v1).result = .ok (.left s1))
    (h2 : (append d a s1 v2).result = .ok (.left s2)) :
    stakeOf s2.total_vote_outcomes v1.commitment =
      stakeOf s.total_vote_outcomes v1.commitment +
        v1.token.vote_count + v2.token.vote_count ∧
    stakeOf s2.yes_vote_outcomes v1.commitment =
      stakeOf s.yes_vote_outcomes v1.commitment +
        v1.token.vote_count + v2.token.vote_count ∧
    innerLookup s2.total_vote_outcomes v1.commitment v1.key =
      some (v2.sig, v2.vote_data, v2.token) ∧
    innerLookup s2.yes_vote_outcomes v1.commitment v1.key =
      some (v2.sig, v2.vote_data, v2.token) ∧
    innerSize s2.total_vote_outcomes v1.commitment =
      innerSize s1.total_vote_outcomes v1.commitment ∧
    innerSize s2.yes_vote_outcomes v1.commitment =
      innerSize s1.yes_vote_outcomes v1.commitment := by
  obtain ⟨x1, hd1, hin1, hcat1, hs1⟩ := append_ok_left d a s v1 s1 h1
  obtain ⟨x2, hd2, hin2, hcat2, hs2⟩ := append_ok_left d a s1 v2 s2 h2
  subst hs1 hs2
  have e1tot : stakeOf (updatedAcc s v1 x1).total_vote_outcomes v1.commitment =
      stakeOf s.total_vote_outcomes v1.commitment + v1.token.vote_count :=
    updatedAcc_total_stake s v1 x1
  have e2tot : stakeOf (updatedAcc (updatedAcc s v1 x1) v2 x2).total_vote_outcomes
      v1.commitment =
      stakeOf (updatedAcc s v1 x1).total_vote_outcomes v1.commitment +
        v2.token.vote_count := by
    have := updatedAcc_total_stake (updatedAcc s v1 x1) v2 x2
    simp only [totalStakeAfter] at this
    rw [hc] at this
    exact this
  have e1yes : stakeOf (updatedAcc s v1 x1).yes_vote_outcomes v1.commitment =
      stakeOf s.yes_vote_outcomes v1.commitment + v1.token.vote_count :=
    updatedAcc_yes_stake_yes s v1 x1 p1 hv1
  have e2yes : stakeOf (updatedAcc (updatedAcc s v1 x1) v2 x2).yes_vote_outcomes
      v1.commitment =
      stakeOf (updatedAcc s v1 x1).yes_vote_outcomes v1.commitment +
        v2.token.vote_count := by
    have := updatedAcc_yes_stake_yes (updatedAcc s v1 x1) v2 x2 p2 hv2
    rw [hc] at this
    exact this
  have l1tot : innerLookup (updatedAcc s v1 x1).total_vote_outcomes v1.commitment v1.key =
      some (v1.sig, v1.vote_data, v1.token) := updatedAcc_total_innerLookup s v1 x1
  have l2tot : innerLookup (updatedAcc (updatedAcc s v1 x1) v2 x2).total_vote_outcomes
      v1.commitment v1.key = some (v2.sig, v2.vote_data, v2.token) := by
    have := updatedAcc_total_innerLookup (updatedAcc s v1 x1) v2 x2
    rw [hc, hk] at this
    exact this
  have l1yes : innerLookup (updatedAcc s v1 x1).yes_vote_outcomes v1.commitment v1.key =
      some (v1.sig, v1.vote_data, v1.token) :=
    updatedAcc_yes_innerLookup s v1 x1 p1 hv1
  have l2yes : innerLookup (updatedAcc (updatedAcc s v1 x1) v2 x2).yes_vote_outcomes
      v1.commitment v1.key = some (v2.sig, v2.vote_data, v2.token) := by
    have := updatedAcc_yes_innerLookup (updatedAcc s v1 x1) v2 x2 p2 hv2
    rw [hc, hk] at this
    exact this
  have z2tot : innerSize (updatedAcc (updatedAcc s v1 x1) v2 x2).total_vote_outcomes
      v1.commitment = innerSize (updatedAcc s v1 x1).total_vote_outcomes v1.commitment := by
    have := updatedAcc_total_innerSize (updatedAcc s v1 x1) v2 x2
      (by rw [hc, hk, l1tot]; simp)
    rw [hc] at this
    exact this
  have z2yes : innerSize (updatedAcc (updatedAcc s v1 x1) v2 x2).yes_vote_outcomes
      v1.commitment = innerSize (updatedAcc s v1 x1).yes_vote_outcomes v1.commitment := by
    have := updatedAcc_yes_innerSize (updatedAcc s v1 x1) v2 x2 p2 hv2
      (by rw [hc, hk, l1yes]; simp)
    rw [hc] at this
    exact this
  refine ⟨?_, ?_, l2tot, l2yes, z2tot, z2yes⟩
  · rw [e2tot, e1tot]
  · rw [e2yes, e1yes]

/-- Witness for C7 at concrete inputs: signer key 1 (node 0) votes `Yes`
twice on subject 7 with weight 1 into a fresh accumulator. -/
theorem duplicate_signer_double_stake_witness :
    ((append decOk asmOk (emptyAcc 4 3 2) (sampleVote 7 1 5 0 1 (.Yes 9))).result =
        .ok (.left (updatedAcc (emptyAcc 4 3 2) (sampleVote 7 1 5 0 1 (.Yes 9)) 5)) ∧
      (append decOk asmOk (updatedAcc (emptyAcc 4 3 2) (sampleVote 7 1 5 0 1 (.Yes 9)) 5)
          (sampleVote 7 1 6 0 1 (.Yes 9))).result =
        .ok (.left (updatedAcc (updatedAcc (emptyAcc 4 3 2) (sampleVote 7 1 5 0 1 (.Yes 9)) 5)
          (sampleVote 7 1 6 0 1 (.Yes 9)) 6))) ∧
    stakeOf (updatedAcc (updatedAcc (emptyAcc 4 3 2) (sampleVote 7 1 5 0 1 (.Yes 9)) 5)
        (sampleVote 7 1 6 0 1 (.Yes 9)) 6).total_vote_outcomes 7 =
      stakeOf (emptyAcc 4 3 2).total_vote_outcomes 7 + 1 + 1 :=
  ⟨⟨by decide, by decide⟩,
    (duplicate_signer_double_stake decOk asmOk (emptyAcc 4 3 2)
      (updatedAcc (emptyAcc 4 3 2) (sampleVote 7 1 5 0 1 (.Yes 9)) 5)
      (updatedAcc (updatedAcc (emptyAcc 4 3 2) (sampleVote 7 1 5 0 1 (.Yes 9)) 5)
        (sampleVote 7 1 6 0 1 (.Yes 9)) 6)
      (sampleVote 7 1 5 0 1 (.Yes 9)) (sampleVote 7 1 6 0 1 (.Yes 9)) 9 9
      (by decide) (by decide) (by decide) (by decide) (by decide) (by decide)).1⟩

/-- The `da` tally entry for subject 7 after one accepted `Yes` vote on
a fresh accumulator (used to exhibit the `or_insert_with` effect). -/
def daEntryAfterYesVote : Option (Nat × List (PubKey × SignerEntry)) :=
  match (append decOk asmOk (emptyAcc 4 3 2) (sampleVote 7 1 5 0 1 (.Yes 9))).result with
  | .ok (.left s1) => mlookup s1.da_vote_outcomes 7
  | _ => none

/-- Counterexample to claim C8: an accepted `Yes` vote on a fresh subject does
change the `da` map — `or_insert_with` creates an empty `(0, ∅)` entry
for the subject in all four maps before the dispatch, so the two
non-selected category maps are not left unchanged. -/
theorem category_frame_cex :
    mlookup (emptyAcc 4 3 2).da_vote_outcomes 7 = none ∧
    daEntryAfterYesVote = some (0, []) := by
  exact ⟨by decide, by decide⟩

/-- Amended claim C8: each accepted `append` adds the vote's weight and signer
entry to exactly the tally map selected by the vote's category, and the
other two category maps are unchanged except that an empty `(0, ∅)`
entry is created for the vote's subject when absent (the
`or_insert_with` lookup-or-create touches all maps). -/
theorem category_dispatch_frame (d : EncSig → Option Sig)
    (a : QCParams → List Bool → List Sig → Option AggSig)
    (s s1 : VoteAccumulator) (v : VoteVal)
    (h : (append d a s v).result = .ok (.left s1)) :
    (∀ p, v.vote_data = .DA p →
      categoryUpdated s.da_vote_outcomes s1.da_vote_outcomes v ∧
      unchangedExceptEmptyInit s.yes_vote_outcomes s1.yes_vote_outcomes v.commitment ∧
      unchangedExceptEmptyInit s.no_vote_outcomes s1.no_vote_outcomes v.commitment) ∧
    (∀ p, v.vote_data = .Yes p →
      categoryUpdated s.yes_vote_outcomes s1.yes_vote_outcomes v ∧
      unchangedExceptEmptyInit s.da_vote_outcomes s1.da_vote_outcomes v.commitment ∧
      unchangedExceptEmptyInit s.no_vote_outcomes s1.no_vote_outcomes v.commitment) ∧
    (∀ p, v.vote_data = .No p →
      categoryUpdated s.no_vote_outcomes s1.no_vote_outcomes v ∧
      unchangedExceptEmptyInit s.da_vote_outcomes s1.da_vote_outcomes v.commitment ∧
      unchangedExceptEmptyInit s.yes_vote_outcomes s1.yes_vote_outcomes v.commitment) := by
  obtain ⟨x, hd, hin, hcat, hs1⟩ := append_ok_left d a s v s1 h
  subst hs1
  refine ⟨fun p hv => ?_, fun p hv => ?_, fun p hv => ?_⟩ <;>
    exact ⟨by simpa [updatedAcc, hv] using bump_touch_categoryUpdated _ v,
      by simpa [updatedAcc, hv] using touch_unchangedExceptEmptyInit _ v.commitment,
      by simpa [updatedAcc, hv] using touch_unchangedExceptEmptyInit _ v.commitment⟩

/-- Witness for the amended C8 at a concrete input (the `Yes` branch of
the dispatch). -/
theorem category_dispatch_frame_witness :
    (append decOk asmOk (emptyAcc 4 3 2) (sampleVote 7 1 5 0 1 (.Yes 9))).result =
      .ok (.left (updatedAcc (emptyAcc 4 3 2) (sampleVote 7 1 5 0 1 (.Yes 9)) 5)) ∧
    categoryUpdated (emptyAcc 4 3 2).yes_vote_outcomes
      (updatedAcc (emptyAcc 4 3 2) (sampleVote 7 1 5 0 1 (.Yes 9)) 5).yes_vote_outcomes
      (sampleVote 7 1 5 0 1 (.Yes 9)) :=
  ⟨by decide,
    ((category_dispatch_frame decOk asmOk (emptyAcc 4 3 2)
        (updatedAcc (emptyAcc 4 3 2) (sampleVote 7 1 5 0 1 (.Yes 9)) 5)
        (sampleVote 7 1 5 0 1 (.Yes 9)) (by decide)).2.1 9 (by decide)).1⟩

/-- State after two accepted `Yes` votes from the same signer (node 0)
on a fresh accumulator. -/
def dupSignerState : Option VoteAccumulator :=
  appendAll decOk asmOk (emptyAcc 4 3 2)
    [sampleVote 7 1 5 0 1 (.Yes 9), sampleVote 7 1 6 0 1 (.Yes 9)]

/-- Signature-list length of `dupSignerState`. -/
def dupSignerLen : Nat :=
  match dupSignerState with
  | some s => s.sig_lists.length
  | none => 0

/-- Bitmask popcount of `dupSignerState`. -/
def dupSignerPop : Nat :=
  match dupSignerState with
  | some s => popcount s.signers
  | none => 0

/-- Counterexample to claim C9: after two accepted votes from the same signer the
signature list holds two signatures while only one bit is set — the
list length does not equal the number of set bits. -/
theorem sig_list_popcount_cex :
    dupSignerState.isSome ∧ dupSignerLen = 2 ∧ dupSignerPop = 1 := by
  exact ⟨by decide, by decide, by decide⟩

/-- Amended claim C9: over any sequence of accepted `append` calls whose
votes carry pairwise-distinct signer indices not yet set in the starting
bitmask, and starting from a state whose signature-list length equals
its bitmask popcount, the signature list is append-only — it ends as the
starting list extended by each accepted vote's deserialized signature in
arrival order — and its length equals the number of set bits of the
signer bitmask. -/
theorem sig_list_matches_popcount (d : EncSig → Option Sig)
    (a : QCParams → List Bool → List Sig → Option AggSig)
    (votes : List VoteVal) (s s' : VoteAccumulator)
    (hnodup : (votes.map VoteVal.node_id).Nodup)
    (hfresh : ∀ v ∈ votes, bitGet s.signers v.node_id = false)
    (hinv : s.sig_lists.length = popcount s.signers)
    (happ : appendAll d a s votes = some s') :
    s'.sig_lists = s.sig_lists ++ votes.filterMap (fun v => d v.sig) ∧
    s'.sig_lists.length = popcount s'.signers := by
  induction votes generalizing s with
  | nil =>
    simp only [appendAll, Option.some.injEq] at happ
    subst happ
    simp [hinv]
  | cons v vs ih =>
    rw [appendAll] at happ
    cases hr : (append d a s v).result with
    | error e => rw [hr] at happ; exact absurd happ (by simp)
    | ok r =>
      cases r with
      | right cert => rw [hr] at happ; exact absurd happ (by simp)
      | left s1 =>
        rw [hr] at happ
        obtain ⟨x, hd, hin, hcat, hs1⟩ := append_ok_left d a s v s1 hr
        subst hs1
        have hbit : bitGet s.signers v.node_id = false := hfresh v (by simp)
        have hlen1 : (updatedAcc s v x).sig_lists.length =
            popcount (updatedAcc s v x).signers := by
          rw [updatedAcc_sig_lists, updatedAcc_signers,
            popcount_bitSet_false s.signers v.node_id hin hbit]
          simp [hinv]
        have hnodup' : (v.node_id :: vs.map VoteVal.node_id).Nodup := by
          simpa using hnodup
        have hnd : v.node_id ∉ vs.map VoteVal.node_id := (List.nodup_cons.mp hnodup').1
        have hfresh1 : ∀ w ∈ vs, bitGet (updatedAcc s v x).signers w.node_id = false := by
          intro w hw
          have hne : w.node_id ≠ v.node_id := fun hcontra =>
            hnd (hcontra ▸ List.mem_map_of_mem _ hw)
          rw [updatedAcc_signers, bitGet_bitSet_ne s.signers v.node_id w.node_id hne]
          exact hfresh w (List.mem_cons_of_mem _ hw)
        obtain ⟨hl, hp⟩ :=
          ih (updatedAcc s v x) (List.nodup_cons.mp hnodup').2 hfresh1 hlen1 happ
        refine ⟨?_, hp⟩
        rw [hl, updatedAcc_sig_lists]
        simp [List.filterMap_cons, hd]

/-- State after two accepted `Yes` votes from two distinct signers
(nodes 0 and 1) on a fresh accumulator. -/
def twoSignerState : Option VoteAccumulator :=
  appendAll decOk asmOk (emptyAcc 4 3 2)
    [sampleVote 7 1 5 0 1 (.Yes 9), sampleVote 7 2 6 1 1 (.Yes 9)]

/-- Unwrap an optional accumulator state (dummy fallback). -/
def forceState (o : Option VoteAccumulator) : VoteAccumulator :=
  match o with
  | some s => s
  | none => emptyAcc 0 0 0

/-- Witness for the amended C9 at concrete inputs: two accepted votes
from distinct signers leave two signatures and two set bits. -/
theorem sig_list_matches_popcount_witness :
    (([sampleVote 7 1 5 0 1 (.Yes 9), sampleVote 7 2 6 1 1 (.Yes 9)].map
        VoteVal.node_id).Nodup ∧
      (∀ v ∈ [sampleVote 7 1 5 0 1 (.Yes 9), sampleVote 7 2 6 1 1 (.Yes 9)],
        bitGet (emptyAcc 4 3 2).signers v.node_id = false) ∧
      (emptyAcc 4 3 2).sig_lists.length = popcount (emptyAcc 4 3 2).signers ∧
      appendAll decOk asmOk (emptyAcc 4 3 2)
          [sampleVote 7 1 5 0 1 (.Yes 9), sampleVote 7 2 6 1 1 (.Yes 9)] =
        some (forceState twoSignerState)) ∧
    (forceState twoSignerState).sig_lists.length =
      popcount (forceState twoSignerState).signers :=
  ⟨⟨by decide, by decide, by decide, by decide⟩,
    (sig_list_matches_popcount decOk asmOk
      [sampleVote 7 1 5 0 1 (.Yes 9), sampleVote 7 2 6 1 1 (.Yes 9)]
      (emptyAcc 4 3 2) (forceState twoSignerState)
      (by decide) (by decide) (by decide) (by decide)).2⟩

/-- Claim C10: when `append` returns `Certified(Yes)` the subject's `yes`
entry is removed while its `total`, `da` and `no` entries remain;
symmetrically `Certified(DA)` removes only the `da` entry and
`Certified(No)` removes only the `total` entry, leaving the other three
in place (state read on the value of `self` at the return point). -/
theorem certified_removal_frame (d : EncSig → Option Sig)
    (a : QCParams → List Bool → List Sig → Option AggSig)
    (s : VoteAccumulator) (v : VoteVal) (cert : QCAssembledSignature)
    (h : (append d a s v).result = .ok (.right cert)) :
    ∃ t, (append d a s v).selfAtReturn = some t ∧
      ((∃ q, cert = .DA q) →
        mlookup t.da_vote_outcomes v.commitment = none ∧
        (mlookup t.total_vote_outcomes v.commitment).isSome ∧
        (mlookup t.yes_vote_outcomes v.commitment).isSome ∧
        (mlookup t.no_vote_outcomes v.commitment).isSome) ∧
      ((∃ q, cert = .Yes q) →
        mlookup t.yes_vote_outcomes v.commitment = none ∧
        (mlookup t.total_vote_outcomes v.commitment).isSome ∧
        (mlookup t.da_vote_outcomes v.commitment).isSome ∧
        (mlookup t.no_vote_outcomes v.commitment).isSome) ∧
      ((∃ q, cert = .No q) →
        mlookup t.total_vote_outcomes v.commitment = none ∧
        (mlookup t.da_vote_outcomes v.commitment).isSome ∧
        (mlookup t.yes_vote_outcomes v.commitment).isSome ∧
        (mlookup t.no_vote_outcomes v.commitment).isSome) := by
  obtain ⟨x, hd, hin, hcat, heq⟩ := append_ok_inv d a s v _ h
  rw [heq] at h ⊢
  obtain ⟨h1, q, ha, hcase⟩ := thresholdCheck_ok_right _ _ _ _ _ h
  rcases hcase with ⟨hda, hcert, hself⟩ | ⟨hda, hyes, hcert, hself⟩ |
    ⟨hda, hyes, hno, hcert, hself⟩
  · subst hcert
    refine ⟨_, hself, fun _ => ?_, fun hq => ?_, fun hq => ?_⟩
    · exact ⟨mlookup_mremove_self _ _, updatedAcc_total_isSome s v x,
        updatedAcc_yes_isSome s v x, updatedAcc_no_isSome s v x⟩
    · obtain ⟨q', hq'⟩ := hq; cases hq'
    · obtain ⟨q', hq'⟩ := hq; cases hq'
  · subst hcert
    refine ⟨_, hself, fun hq => ?_, fun _ => ?_, fun hq => ?_⟩
    · obtain ⟨q', hq'⟩ := hq; cases hq'
    · exact ⟨mlookup_mremove_self _ _, updatedAcc_total_isSome s v x,
        updatedAcc_da_isSome s v x, updatedAcc_no_isSome s v x⟩
    · obtain ⟨q', hq'⟩ := hq; cases hq'
  · subst hcert
    refine ⟨_, hself, fun hq => ?_, fun hq => ?_, fun _ => ?_⟩
    · obtain ⟨q', hq'⟩ := hq; cases hq'
    · obtain ⟨q', hq'⟩ := hq; cases hq'
    · exact ⟨mlookup_mremove_self _ _, updatedAcc_da_isSome s v x,
        updatedAcc_yes_isSome s v x, updatedAcc_no_isSome s v x⟩

/-- Witness for C10 at a concrete input: a weight-3 `Yes` vote certifies
`Yes` on a fresh accumulator with `success_threshold = 3`. -/
theorem certified_removal_frame_witness :
    (append decOk asmOk (emptyAcc 4 3 2) (sampleVote 7 1 5 0 3 (.Yes 9))).result =
      .ok (.right (.Yes 0)) ∧
    ∃ t, (append decOk asmOk (emptyAcc 4 3 2) (sampleVote 7 1 5 0 3 (.Yes 9))).selfAtReturn =
        some t ∧
      ((∃ q, (QCAssembledSignature.Yes 0) = .DA q) →
        mlookup t.da_vote_outcomes 7 = none ∧
        (mlookup t.total_vote_outcomes 7).isSome ∧
        (mlookup t.yes_vote_outcomes 7).isSome ∧
        (mlookup t.no_vote_outcomes 7).isSome) ∧
      ((∃ q, (QCAssembledSignature.Yes 0) = .Yes q) →
        mlookup t.yes_vote_outcomes 7 = none ∧
        (mlookup t.total_vote_outcomes 7).isSome ∧
        (mlookup t.da_vote_outcomes 7).isSome ∧
        (mlookup t.no_vote_outcomes 7).isSome) ∧
      ((∃ q, (QCAssembledSignature.Yes 0) = .No q) →
        mlookup t.total_vote_outcomes 7 = none ∧
        (mlookup t.da_vote_outcomes 7).isSome ∧
        (mlookup t.yes_vote_outcomes 7).isSome ∧
        (mlookup t.no_vote_outcomes 7).isSome) :=
  ⟨by decide,
    certified_removal_frame decOk asmOk (emptyAcc 4 3 2) (sampleVote 7 1 5 0 3 (.Yes 9))
      (.Yes 0) (by decide)⟩

end HotShotVote
